import Mathlib

/-!
Verification of the installation-event pipeline of the unity-cli-tools
repository: the Unity Hub line-event parser (`src/events/hubEventParser.ts`)
and the installation event sequencer (`src/events/hubEventEmitter.ts`).

Strings are modelled as `List Char` (JS strings are sequences of code units;
all inputs of interest here are plain characters).  Numeric progress values
are modelled as `ℚ`: the JS `parseFloat` is only ever applied to text matched
by `\d+(\.\d+)?`, on which its value is the exact decimal denoted by the text
(all values appearing in this development are exactly representable, so no
IEEE-754 rounding is observable).
-/

/-- JS regex `\s` character class (the WhiteSpace and LineTerminator code
points relevant to `\s`, as used by `\s+` in the status-line pattern and by
`String.prototype.trim`). -/
def jsWhitespace (c : Char) : Bool :=
  c = ' ' ∨ c = '\t' ∨ c = '\n' ∨ c = '\r' ∨ c = '\x0b' ∨ c = '\x0c' ∨
  c = ' ' ∨ c = ' ' ∨ c = ' ' ∨ c = ' ' ∨ c = ' ' ∨
  c = ' ' ∨ c = ' ' ∨ c = ' ' ∨ c = ' ' ∨ c = ' ' ∨
  c = ' ' ∨ c = ' ' ∨ c = ' ' ∨ c = ' ' ∨ c = ' ' ∨
  c = ' ' ∨ c = ' ' ∨ c = '　' ∨ c = '﻿'

/-- JS regex `.` (without the `s` flag): any character except a line
terminator. -/
def jsDot (c : Char) : Bool :=
  ¬ (c = '\n' ∨ c = '\r' ∨ c = ' ' ∨ c = ' ')

/-- JS regex `\d` character class. -/
def jsDigit (c : Char) : Bool := '0' ≤ c ∧ c ≤ '9'

/-- JS `String.prototype.trim`: strip leading and trailing whitespace. -/
def jsTrim (l : List Char) : List Char :=
  ((l.dropWhile jsWhitespace).reverse.dropWhile jsWhitespace).reverse

/-- JS `String.prototype.split("\n")`: split on newline, keeping empty
segments (`"" ↦ [""]`, `"a\n" ↦ ["a",""]`). -/
def splitOnNl : List Char → List (List Char)
  | [] => [[]]
  | '\n' :: rest => [] :: splitOnNl rest
  | c :: rest =>
    match splitOnNl rest with
    | [] => [[c]]
    | l :: ls => (c :: l) :: ls

/-- Modelled from the spec: the string values of the `InstallerStatus`
enumeration (declared in `src/types/unity.ts`, which is not present under
`src/`).  The spec's Glossary fixes the enumeration as Queued, Validating,
InProgress, Downloading, QueuedInstall, ValidatingInstall, Installing,
Verifying, Installed, Error; the parser compares raw captured status text
against these values, so each value is the status name itself. -/
def InstallerStatusValues : List (List Char) :=
  ["Queued".data, "Validating".data, "InProgress".data, "Downloading".data,
   "QueuedInstall".data, "ValidatingInstall".data, "Installing".data,
   "Verifying".data, "Installed".data, "Error".data]

namespace InstallerStatus

/-- Modelled from the spec: `InstallerStatus.Downloading`. -/
def Downloading : List Char := "Downloading".data

/-- Modelled from the spec: `InstallerStatus.Installed`. -/
def Installed : List Char := "Installed".data

/-- Modelled from the spec: `InstallerStatus.Error`. -/
def Error : List Char := "Error".data

end InstallerStatus

/-- `InstallerEvent` of `src/types/unity.ts` as used by the parser and the
sequencer: `module` and `status` are always present, `progress` and `error`
optional (`none` models both JS `null` and an absent key). -/
structure InstallerEvent where
  module : List Char
  status : List Char
  progress : Option ℚ
  error : Option (List Char)
deriving DecidableEq

namespace UnityHubEventParser

/-- JS `RegExp.prototype.test` for the pattern `/Error:.*/` (the single
element of `errorPatterns`): the pattern is unanchored, so `test` succeeds
iff the literal `Error:` occurs starting at some position of the line (the
trailing `.*` always matches, possibly empty). -/
def errorPatternTest (l : List Char) : Bool :=
  (List.range (l.length + 1)).any (fun i => "Error:".data.isPrefixOf (l.drop i))

/-- `UnityHubEventParser.checkForErrors`: on a pattern match, an event with
the fixed sentinel module `"UnityHub"`, status Error and the trimmed line
text as error message. -/
def checkForErrors (line : List Char) : Option InstallerEvent :=
  if errorPatternTest line then
    some ⟨"UnityHub".data, InstallerStatus.Error, none, some (jsTrim line)⟩
  else none

/-- The backtracking-forced tail of the status-line regex after the lazy
status group: the optional group `(?:(?:\s+(?<progress>\d+(?:\.\d+)?))%)?`
followed by `\.*$`.  Inside the group every quantifier is forced to its
maximal match (each is followed by a token its own character class cannot
match), so the group matches exactly `\s+ digits [. digits] %` with the
remainder all literal dots.  Returns the `progress` capture on success. -/
def tryProgressGroup (u : List Char) : Option (List Char) :=
  let w := u.takeWhile jsWhitespace
  if w = [] then none
  else
    let u1 := u.drop w.length
    let ds := u1.takeWhile jsDigit
    if ds = [] then none
    else
      match u1.drop ds.length with
      | '.' :: u3 =>
        let fs := u3.takeWhile jsDigit
        if fs = [] then none
        else
          match u3.drop fs.length with
          | '%' :: u5 => if u5.all (fun c => c = '.') then some (ds ++ '.' :: fs) else none
          | _ => none
      | '%' :: u5 => if u5.all (fun c => c = '.') then some ds else none
      | _ => none

/-- Tail match after the lazy status group: the regex engine first tries the
optional percentage group (greedy `?`), then falls back to skipping it, in
which case `\.*$` requires the remainder to be all dots.  `some pg` is a
successful match with `pg` the `progress` capture (`none` when the group was
skipped). -/
def matchPercentTail (u : List Char) : Option (Option (List Char)) :=
  match tryProgressGroup u with
  | some pg => some (some pg)
  | none => if u.all (fun c => c = '.') then some none else none

/-- The lazy group `(?<status>.+?)` followed by the percent tail: the engine
extends the status capture one character at a time (each must match `.`),
trying the tail after each extension, and returns the first success. -/
def lazyStatus (acc : List Char) : List Char → Option (List Char × Option (List Char))
  | [] => none
  | c :: rest =>
    if jsDot c then
      match matchPercentTail rest with
      | some pg => some (acc ++ [c], pg)
      | none => lazyStatus (acc ++ [c]) rest
    else none

/-- The greedy `\s+` after `\]`: try the maximal whitespace run first, then
backtrack one character at a time down to a single whitespace character. -/
def tryWs (rest2 : List Char) : Nat → Option (List Char × Option (List Char))
  | 0 => none
  | k + 1 =>
    match lazyStatus [] (rest2.drop (k + 1)) with
    | some r => some r
    | none => tryWs rest2 k

/-- JS `line.match(pattern)` for the status-line pattern
`/^\[(?<module>[^\]]+)\]\s+(?<status>.+?)(?:(?:\s+(?<progress>\d+(?:\.\d+)?))%)?\.*$/`,
returning the `module`, `status` and optional `progress` captures.  The
leading `[^\]]+` is greedy over non-`]` characters and must be followed by
`]`, so the module capture is exactly the text up to the first `]`. -/
def matchStatusLine (line : List Char) : Option (List Char × List Char × Option (List Char)) :=
  match line with
  | '[' :: rest =>
    let m := rest.takeWhile (fun c => ¬ c = ']')
    if m = [] then none
    else
      match rest.drop m.length with
      | ']' :: rest2 =>
        match tryWs rest2 (rest2.takeWhile jsWhitespace).length with
        | some (st, pg) => some (m, st, pg)
        | none => none
      | _ => none
  | _ => none

/-- Digit-string to natural number. -/
def digitsToNat (l : List Char) : Nat :=
  l.foldl (fun n c => 10 * n + (c.toNat - 48)) 0

/-- JS `parseFloat` restricted to text matched by `\d+(\.\d+)?`: the exact
decimal value of the text. -/
def parseFloatOnMatch (l : List Char) : ℚ :=
  let ip := l.takeWhile (fun c => ¬ c = '.')
  match l.drop ip.length with
  | '.' :: fp => (digitsToNat ip : ℚ) + (digitsToNat fp : ℚ) / ((10 : ℚ) ^ fp.length)
  | _ => (digitsToNat ip : ℚ)

/-- JS `status.replace(/\.\.\.$/, "")`: drop a trailing ellipsis when the
text ends in three dots. -/
def stripTrailingEllipsis (l : List Char) : List Char :=
  if ['.', '.', '.'].isSuffixOf l then l.take (l.length - 3) else l

/-- The event built from a status-line match (the push in the second loop of
`parseUnityHubEvent`): module trimmed, status with trailing ellipsis stripped
and trimmed, and progress the parsed capture when present, else `0` for the
raw `Downloading` status and `null` otherwise (the ternary tests the raw
`status` capture, before the replace/trim). -/
def statusLineEvent (line : List Char) : Option InstallerEvent :=
  match matchStatusLine line with
  | some (m, st, pg) =>
    some ⟨jsTrim m, jsTrim (stripTrailingEllipsis st),
      match pg with
      | some p => some (parseFloatOnMatch p)
      | none => if ¬ st = InstallerStatus.Downloading then none else some 0,
      none⟩
  | none => none

/-- `UnityHubEventParser.parseUnityHubEvent`: split the chunk on newlines,
push one event per error-pattern line (first loop), then one event per
status-pattern line (second loop). -/
def parseUnityHubEvent (event : List Char) : List InstallerEvent :=
  let lines := splitOnNl event
  let events := lines.foldl (fun acc line =>
    match checkForErrors line with
    | some e => acc ++ [e]
    | none => acc) []
  lines.foldl (fun acc line =>
    match statusLineEvent line with
    | some e => acc ++ [e]
    | none => acc) events

end UnityHubEventParser

/-- The four notification kinds of `InstallerEventType`, each carrying the
`InstallerEvent[]` payload passed to `emit`. -/
inductive Notif where
  | progress (evs : List InstallerEvent)
  | error (evs : List InstallerEvent)
  | completed (evs : List InstallerEvent)
  | cancelled (evs : List InstallerEvent)
deriving DecidableEq

/-- The three ways a promise obtained from the `completed` accessor can
settle: `resolve(events)` on Completed, `reject(error)` with the error-event
payload on Error, `reject(new Error("Cancelled"))` on Cancelled. -/
inductive Settlement where
  | resolved (evs : List InstallerEvent)
  | rejectedError (evs : List InstallerEvent)
  | rejectedCancelled
deriving DecidableEq

/-- The settlement a terminal notification induces on a listening promise
(`onComplete` / `onError` / `onCancel` of the `completed` getter); Progress
notifications are not terminal. -/
def notifSettlement : Notif → Option Settlement
  | .progress _ => none
  | .error evs => some (.rejectedError evs)
  | .completed evs => some (.resolved evs)
  | .cancelled _ => some .rejectedCancelled

/-- The settlement produced by the first terminal notification of a list, if
any. -/
def settleFrom (ns : List Notif) : Option Settlement :=
  (ns.filterMap notifSettlement).head?

/-- One promise returned by a read of the `completed` accessor.  `active`
records whether its three listeners are still registered (the handlers call
`cleanup()` on first firing); `attempts` counts how many times a handler
invoked `resolve`/`reject`. -/
structure Promise where
  settled : Option Settlement
  active : Bool
  attempts : Nat
deriving DecidableEq

/-- A freshly created promise: unsettled, listeners registered. -/
def Promise.fresh : Promise := ⟨none, true, 0⟩

/-- Effect of one emitted notification on one promise: while the listeners
are registered, a terminal notification runs the handler, which removes the
listeners and settles the promise (settling an already-settled promise would
be a no-op of the promise primitive). -/
def Promise.onNotif (p : Promise) (n : Notif) : Promise :=
  if p.active then
    match notifSettlement n with
    | some s =>
      ⟨match p.settled with
       | none => some s
       | some s0 => some s0, false, p.attempts + 1⟩
    | none => p
  else p

/-- State of one `UnityHubInstallerEvent` instance: the private
`#moduleTracker` map (association list in JS `Map` insertion order) together
with the promises handed out by reads of the `completed` accessor, in
creation order. -/
structure SeqState where
  tracker : List (List Char × List Char)
  promises : List Promise
deriving DecidableEq

/-- The freshly constructed instance: empty tracker, no promise read yet. -/
def initState : SeqState := ⟨[], []⟩

namespace UnityHubInstallerEvent

open UnityHubEventParser

/-- JS `Map.prototype.set`: replace the value in place when the key exists,
else append the new entry. -/
def mapSet (tr : List (List Char × List Char)) (k v : List Char) :
    List (List Char × List Char) :=
  if tr.any (fun p => p.1 = k) then
    tr.map (fun p => if p.1 = k then (k, v) else p)
  else tr ++ [(k, v)]

/-- `#updateModuleTracker`: `map.set(event.module, event.status)` for every
event of the batch, in order. -/
def updateModuleTracker (tr : List (List Char × List Char))
    (events : List InstallerEvent) : List (List Char × List Char) :=
  events.foldl (fun tr e => mapSet tr e.module e.status) tr

/-- Deliver a list of emitted notifications, in order, to every promise. -/
def applyNotifs (ps : List Promise) (ns : List Notif) : List Promise :=
  ns.foldl (fun ps n => ps.map (fun p => p.onNotif n)) ps

/-- `#Error`: emit an Error notification carrying the error-status events
when there are any. -/
def errNotifsOf (events : List InstallerEvent) : List Notif :=
  let errorEvents := events.filter (fun e => e.status = InstallerStatus.Error)
  if errorEvents = [] then [] else [Notif.error errorEvents]

/-- `#Complete`: emit a Completed notification carrying the Installed-status
events when they are non-empty and make up the whole batch. -/
def completeNotifs (events : List InstallerEvent) : List Notif :=
  let installed := events.filter (fun e => e.status = InstallerStatus.Installed)
  if 0 < installed.length ∧ installed.length = events.length then
    [Notif.completed installed]
  else []

/-- The notifications emitted by one `Progress(raw)` call, a function of the
raw chunk alone (the method never reads the tracker or the promises): parse;
nothing when no events; Error notification for the error-status events; stop
if no non-error events remain; else Progress with the non-error events
followed by the `#Complete` check on that same batch. -/
def ProgressNotifs (raw : List Char) : List Notif :=
  let events := parseUnityHubEvent raw
  if events = [] then []
  else
    let errNotifs := errNotifsOf events
    let progressEvents := events.filter (fun e => ¬ e.status = InstallerStatus.Error)
    if progressEvents = [] then errNotifs
    else errNotifs ++ [Notif.progress progressEvents] ++ completeNotifs progressEvents

/-- `Progress(raw)`, the ingestion entry point: emits `ProgressNotifs raw`
(delivered to the listening promises) and, when the batch passes the
non-empty checks, records every parsed event (error events included) in the
module tracker. -/
def Progress (st : SeqState) (raw : List Char) : SeqState × List Notif :=
  let events := parseUnityHubEvent raw
  let ns := ProgressNotifs raw
  let tracker :=
    if events = [] then st.tracker
    else if events.filter (fun e => ¬ e.status = InstallerStatus.Error) = [] then st.tracker
    else updateModuleTracker st.tracker events
  (⟨tracker, applyNotifs st.promises ns⟩, ns)

/-- `Cancel()`: clear the module tracker and emit a Cancelled notification
with an empty event list. -/
def Cancel (st : SeqState) : SeqState × List Notif :=
  (⟨[], applyNotifs st.promises [Notif.cancelled []]⟩, [Notif.cancelled []])

/-- The externally observable operations on one instance: an ingestion call,
a cancellation call, or a read of the `completed` accessor (which registers
three listeners and hands out a fresh promise). -/
inductive Op where
  | ingest (raw : List Char)
  | cancel
  | readCompleted
deriving DecidableEq

/-- One operation step. -/
def stepOp (st : SeqState) : Op → SeqState × List Notif
  | .ingest raw => Progress st raw
  | .cancel => Cancel st
  | .readCompleted => (⟨st.tracker, st.promises ++ [Promise.fresh]⟩, [])

/-- Run a sequence of operations, collecting the emitted notifications. -/
def execOps (st : SeqState) : List Op → SeqState × List Notif
  | [] => (st, [])
  | op :: ops =>
    let r := stepOp st op
    let r2 := execOps r.1 ops
    (r2.1, r.2 ++ r2.2)

/-- The notifications one operation emits; independent of the instance
state. -/
def opEmissions : Op → List Notif
  | .ingest raw => ProgressNotifs raw
  | .cancel => [Notif.cancelled []]
  | .readCompleted => []

/-- The notification trace of an operation sequence. -/
def traceOf (ops : List Op) : List Notif := ops.flatMap opEmissions

/-- Number of reads of the `completed` accessor in an operation sequence;
the read at position `k` creates promise number `readCount (ops.take k)`. -/
def readCount (ops : List Op) : Nat :=
  (ops.filter (fun op => op = Op.readCompleted)).length

/-- Final state of the promise created by the read between `pre` and `post`,
starting from a fresh instance: `none` when the promise does not exist,
`some p` otherwise. -/
def readPromise (pre post : List Op) : Option Promise :=
  (execOps initState (pre ++ Op.readCompleted :: post)).1.promises[readCount pre]?

end UnityHubInstallerEvent

namespace UnityHubInstallerEvent

theorem settleFrom_cons (n : Notif) (ns : List Notif) :
    settleFrom (n :: ns) =
      match notifSettlement n with
      | some s => some s
      | none => settleFrom ns := by
  simp only [settleFrom, List.filterMap_cons]
  cases notifSettlement n <;> simp

theorem settleFrom_append_of_some {a : List Notif} {s : Settlement}
    (h : settleFrom a = some s) (b : List Notif) :
    settleFrom (a ++ b) = some s := by
  simp only [settleFrom, List.filterMap_append, List.head?_append]
  simp only [settleFrom] at h
  simp [h, Option.or]

theorem foldl_onNotif_inactive {p : Promise} (h : p.active = false) (ns : List Notif) :
    ns.foldl Promise.onNotif p = p := by
  induction ns with
  | nil => rfl
  | cons n ns ih =>
    have : p.onNotif n = p := by simp [Promise.onNotif, h]
    simp [List.foldl_cons, this, ih]

theorem foldl_onNotif_fresh (ns : List Notif) :
    ns.foldl Promise.onNotif Promise.fresh =
      match settleFrom ns with
      | some s => ⟨some s, false, 1⟩
      | none => Promise.fresh := by
  induction ns with
  | nil => rfl
  | cons n ns ih =>
    rw [List.foldl_cons, settleFrom_cons]
    cases hn : notifSettlement n with
    | none =>
      have : Promise.fresh.onNotif n = Promise.fresh := by
        simp [Promise.onNotif, Promise.fresh, hn]
      rw [this, ih]
    | some s =>
      have : Promise.fresh.onNotif n = ⟨some s, false, 1⟩ := by
        simp [Promise.onNotif, Promise.fresh, hn]
      rw [this, foldl_onNotif_inactive rfl]

theorem applyNotifs_getElem? (ps : List Promise) (ns : List Notif) (i : Nat) :
    (applyNotifs ps ns)[i]? = ps[i]?.map (fun p => ns.foldl Promise.onNotif p) := by
  induction ns generalizing ps with
  | nil => simp [applyNotifs]
  | cons n ns ih =>
    simp only [applyNotifs, List.foldl_cons] at ih ⊢
    rw [ih, List.getElem?_map]
    cases ps[i]? <;> simp

theorem execOps_append (st : SeqState) (l₁ l₂ : List Op) :
    execOps st (l₁ ++ l₂) =
      ((execOps (execOps st l₁).1 l₂).1,
        (execOps st l₁).2 ++ (execOps (execOps st l₁).1 l₂).2) := by
  induction l₁ generalizing st with
  | nil => simp [execOps]
  | cons op ops ih => simp [execOps, ih, List.append_assoc]

theorem stepOp_snd (st : SeqState) (op : Op) : (stepOp st op).2 = opEmissions op := by
  cases op <;> rfl

theorem execOps_trace (st : SeqState) (ops : List Op) :
    (execOps st ops).2 = traceOf ops := by
  induction ops generalizing st with
  | nil => rfl
  | cons op ops ih =>
    simp only [execOps, traceOf, List.flatMap_cons]
    rw [ih, stepOp_snd]
    rfl

theorem stepOp_promises (st : SeqState) (op : Op) :
    (stepOp st op).1.promises =
      match op with
      | .readCompleted => st.promises ++ [Promise.fresh]
      | _ => applyNotifs st.promises (opEmissions op) := by
  cases op <;> rfl

theorem execOps_promises_getElem? (st : SeqState) (ops : List Op) (i : Nat) (p : Promise)
    (h : st.promises[i]? = some p) :
    ((execOps st ops).1.promises)[i]? = some ((traceOf ops).foldl Promise.onNotif p) := by
  induction ops generalizing st p with
  | nil => simpa [execOps, traceOf] using h
  | cons op ops ih =>
    simp only [execOps, traceOf, List.flatMap_cons]
    rw [List.foldl_append]
    apply ih
    rw [stepOp_promises]
    cases op with
    | readCompleted =>
      have hi : i < st.promises.length := by
        by_contra hlt
        push_neg at hlt
        rw [List.getElem?_eq_none hlt] at h
        exact Option.noConfusion h
      simp only [opEmissions, List.foldl_nil]
      rw [List.getElem?_append, if_pos hi]
      exact h
    | ingest raw =>
      rw [applyNotifs_getElem?, h]
      rfl
    | cancel =>
      rw [applyNotifs_getElem?, h]
      rfl

theorem execOps_promises_length (st : SeqState) (ops : List Op) :
    (execOps st ops).1.promises.length = st.promises.length + readCount ops := by
  induction ops generalizing st with
  | nil => simp [execOps, readCount]
  | cons op ops ih =>
    simp only [execOps]
    rw [ih, stepOp_promises]
    cases op with
    | readCompleted => simp [readCount, List.filter_cons, Nat.add_comm, Nat.add_assoc, Nat.add_left_comm]
    | ingest raw =>
      simp only [applyNotifs, readCount, List.filter_cons]
      have : ∀ (ns : List Notif) (ps : List Promise),
          (ns.foldl (fun ps n => ps.map (fun p => p.onNotif n)) ps).length = ps.length := by
        intro ns
        induction ns with
        | nil => intro ps; rfl
        | cons n ns ih2 => intro ps; rw [List.foldl_cons, ih2, List.length_map]
      simp [this]
    | cancel =>
      simp only [applyNotifs, readCount, List.filter_cons]
      have : ∀ (ns : List Notif) (ps : List Promise),
          (ns.foldl (fun ps n => ps.map (fun p => p.onNotif n)) ps).length = ps.length := by
        intro ns
        induction ns with
        | nil => intro ps; rfl
        | cons n ns ih2 => intro ps; rw [List.foldl_cons, ih2, List.length_map]
      simp [this]

theorem readPromise_eq (pre post : List Op) :
    readPromise pre post =
      some (match settleFrom (traceOf post) with
        | some s => ⟨some s, false, 1⟩
        | none => Promise.fresh) := by
  unfold readPromise
  rw [execOps_append]
  have hlen : (execOps initState pre).1.promises.length = readCount pre := by
    rw [execOps_promises_length]; simp [initState]
  have hfresh : ((stepOp (execOps initState pre).1 Op.readCompleted).1.promises)[readCount pre]?
      = some Promise.fresh := by
    rw [stepOp_promises, ← hlen, List.getElem?_concat_length]
  have := execOps_promises_getElem? (stepOp (execOps initState pre).1 Op.readCompleted).1 post
      (readCount pre) Promise.fresh hfresh
  simp only [execOps] at this ⊢
  rw [this, foldl_onNotif_fresh]

end UnityHubInstallerEvent

namespace UnityHubEventParser

theorem foldl_pushFilter (f : List Char → Option InstallerEvent) :
    ∀ (lines : List (List Char)) (acc : List InstallerEvent),
      lines.foldl (fun acc line =>
        match f line with
        | some e => acc ++ [e]
        | none => acc) acc = acc ++ lines.filterMap f := by
  intro lines
  induction lines with
  | nil => intro acc; simp
  | cons l ls ih =>
    intro acc
    rw [List.foldl_cons, List.filterMap_cons]
    cases f l with
    | none => rw [ih]
    | some e => rw [ih, List.append_assoc]; rfl

theorem parse_eq_append (event : List Char) :
    parseUnityHubEvent event =
      (splitOnNl event).filterMap checkForErrors ++
      (splitOnNl event).filterMap statusLineEvent := by
  unfold parseUnityHubEvent
  rw [foldl_pushFilter, foldl_pushFilter]
  simp

end UnityHubEventParser

namespace UnityHubInstallerEvent

open UnityHubEventParser

theorem Progress_snd (st : SeqState) (raw : List Char) :
    (Progress st raw).2 = ProgressNotifs raw := rfl

theorem completed_mem_iff (raw : List Char) (l : List InstallerEvent) :
    Notif.completed l ∈ ProgressNotifs raw ↔
      ((parseUnityHubEvent raw).filter (fun e => ¬ e.status = InstallerStatus.Error) ≠ [] ∧
       (∀ e ∈ (parseUnityHubEvent raw).filter (fun e => ¬ e.status = InstallerStatus.Error),
          e.status = InstallerStatus.Installed) ∧
       l = (parseUnityHubEvent raw).filter (fun e => ¬ e.status = InstallerStatus.Error)) := by
  simp only [ProgressNotifs]
  by_cases h0 : parseUnityHubEvent raw = []
  · rw [if_pos h0, h0]
    simp
  · rw [if_neg h0]
    set events := parseUnityHubEvent raw with hevents
    set pe := events.filter (fun e => ¬ e.status = InstallerStatus.Error) with hpe
    by_cases hpe0 : pe = []
    · rw [if_pos hpe0, hpe0]
      constructor
      · intro hmem
        exfalso
        unfold errNotifsOf at hmem
        by_cases he : events.filter (fun e => e.status = InstallerStatus.Error) = [] <;>
          simp [he] at hmem
      · rintro ⟨h1, -, -⟩
        exact absurd rfl h1
    · rw [if_neg hpe0]
      have hnotErr : ∀ l', Notif.completed l' ∉ errNotifsOf events := by
        intro l' hmem
        unfold errNotifsOf at hmem
        by_cases he : events.filter (fun e => e.status = InstallerStatus.Error) = [] <;>
          simp [he] at hmem
      have hnotProg : (Notif.completed l) ∉ [Notif.progress pe] := by simp
      constructor
      · intro hmem
        rw [List.mem_append, List.mem_append] at hmem
        rcases hmem with (hmem | hmem) | hmem
        · exact absurd hmem (hnotErr l)
        · exact absurd hmem hnotProg
        · unfold completeNotifs at hmem
          by_cases hc : 0 < (pe.filter (fun e => e.status = InstallerStatus.Installed)).length ∧
              (pe.filter (fun e => e.status = InstallerStatus.Installed)).length = pe.length
          · rw [if_pos hc] at hmem
            simp only [List.mem_singleton, Notif.completed.injEq] at hmem
            subst hmem
            have heq : pe.filter (fun e => e.status = InstallerStatus.Installed) = pe :=
              (List.filter_sublist pe).eq_of_length hc.2
            refine ⟨hpe0, ?_, heq⟩
            intro e he
            have := List.filter_eq_self.mp heq e he
            simpa using this
          · rw [if_neg hc] at hmem
            simp at hmem
      · rintro ⟨-, hall, hl⟩
        subst hl
        have heq : pe.filter (fun e => e.status = InstallerStatus.Installed) = pe := by
          apply List.filter_eq_self.mpr
          intro e he
          simpa using hall e he
        rw [List.mem_append]
        right
        unfold completeNotifs
        rw [heq, if_pos ⟨List.length_pos.mpr hpe0, rfl⟩]
        simp

end UnityHubInstallerEvent

namespace UnityHubEventParser

theorem isPrefixOf_iff_exists : ∀ (a l : List Char), a.isPrefixOf l = true ↔ ∃ t, l = a ++ t
  | [], l => by simp [List.isPrefixOf]
  | c :: a, [] => by simp [List.isPrefixOf]
  | c :: a, d :: l => by
    simp only [List.isPrefixOf, Bool.and_eq_true, beq_iff_eq, List.cons_append, List.cons.injEq]
    rw [isPrefixOf_iff_exists a l]
    constructor
    · rintro ⟨rfl, t, rfl⟩
      exact ⟨t, rfl, rfl⟩
    · rintro ⟨t, rfl, rfl⟩
      exact ⟨rfl, t, rfl⟩

theorem errorPatternTest_iff (l : List Char) :
    errorPatternTest l = true ↔ ∃ p s, l = p ++ "Error:".data ++ s := by
  unfold errorPatternTest
  rw [List.any_eq_true]
  constructor
  · rintro ⟨i, -, hp⟩
    rw [isPrefixOf_iff_exists] at hp
    obtain ⟨t, ht⟩ := hp
    exact ⟨l.take i, t, by rw [List.append_assoc, ← ht, List.take_append_drop]⟩
  · rintro ⟨p, s, rfl⟩
    refine ⟨p.length, ?_, ?_⟩
    · rw [List.mem_range]
      have h1 : ((p ++ "Error:".data) ++ s).length = p.length + "Error:".data.length + s.length := by
        simp only [List.length_append]
      omega
    · rw [List.append_assoc, List.drop_left, isPrefixOf_iff_exists]
      exact ⟨s, rfl⟩

theorem checkForErrors_of_contains {line : List Char}
    (h : ∃ p s, line = p ++ "Error:".data ++ s) :
    checkForErrors line =
      some ⟨"UnityHub".data, InstallerStatus.Error, none, some (jsTrim line)⟩ := by
  unfold checkForErrors
  rw [if_pos ((errorPatternTest_iff line).mpr h)]

theorem checkForErrors_of_not_contains {line : List Char}
    (h : ¬ ∃ p s, line = p ++ "Error:".data ++ s) :
    checkForErrors line = none := by
  unfold checkForErrors
  rw [if_neg]
  intro hc
  exact h ((errorPatternTest_iff line).mp hc)

end UnityHubEventParser

namespace UnityHubEventParser

theorem parseFloatOnMatch_nonneg (l : List Char) : 0 ≤ parseFloatOnMatch l := by
  unfold parseFloatOnMatch
  simp only []
  split
  · apply add_nonneg (Nat.cast_nonneg _)
    apply div_nonneg (Nat.cast_nonneg _)
    positivity
  · exact Nat.cast_nonneg _

theorem checkForErrors_progress {line : List Char} {e : InstallerEvent}
    (h : checkForErrors line = some e) : e.progress = none := by
  unfold checkForErrors at h
  split at h
  · cases h
    rfl
  · cases h

theorem statusLineEvent_progress_nonneg {line : List Char} {e : InstallerEvent}
    (h : statusLineEvent line = some e) : ∀ q, e.progress = some q → 0 ≤ q := by
  unfold statusLineEvent at h
  split at h
  case h_2 => cases h
  case h_1 m st pg heq =>
    cases h
    intro q hq
    simp only at hq
    split at hq
    · cases hq
      exact parseFloatOnMatch_nonneg _
    · split at hq
      · cases hq
      · cases hq
        norm_num

end UnityHubEventParser

open UnityHubEventParser UnityHubInstallerEvent

/-- A consolidated status line reporting module `M` installed. -/
def sampleInstalledLine : List Char := "[M] Installed".data

/-- The event the parser produces for `sampleInstalledLine`. -/
def sampleInstalledEvent : InstallerEvent := ⟨"M".data, "Installed".data, none, none⟩

/-- The three-module batch of the spec's multi-module scenario. -/
def threeModuleChunk : List Char := "[A] Installed\n[B] Installed\n[C] Downloading 50%".data
/-- C1.  The completion accessor denotes a single future created once per
instance at construction; it resolves with the events of the first Completed
notification, rejects with the payload of the first Error notification, or
rejects with a cancellation error on the first Cancelled notification,
whichever occurs first.  FALSE: `get completed` creates a new promise on
every read; after ingesting a batch whose Completed notification already
fired, a freshly read promise is still unsettled (its listeners were
registered only at the read), even though a Completed notification with
events exists in the trace — while a promise read at construction time does
settle with those events.  So there is no single construction-time future,
and a read future does not resolve from an earlier Completed notification. -/
theorem C1_counterexample :
    readPromise [Op.ingest sampleInstalledLine] [] = some ⟨none, true, 0⟩ ∧
    readPromise [] [Op.ingest sampleInstalledLine] =
      some ⟨some (.resolved [sampleInstalledEvent]), false, 1⟩ ∧
    Notif.completed [sampleInstalledEvent] ∈ traceOf [Op.ingest sampleInstalledLine] := by
  refine ⟨by decide, by decide, by decide⟩

/-- C1 (amended).  Each read of the completion accessor creates a fresh
future; the future obtained from a read settles with the first terminal
notification emitted after that read — resolving with the events of a
Completed notification, rejecting with the error payload of an Error
notification, or rejecting with a cancellation error on a Cancelled
notification — and remains pending (listeners registered, no settlement
attempt) when no terminal notification follows the read. -/
theorem C1_amended_fresh_future_settles_on_next_terminal (pre post : List Op) :
    readPromise pre post =
      some (match settleFrom (traceOf post) with
        | some s => ⟨some s, false, 1⟩
        | none => Promise.fresh) ∧
    (∀ evs ns, settleFrom (Notif.completed evs :: ns) = some (.resolved evs)) ∧
    (∀ evs ns, settleFrom (Notif.error evs :: ns) = some (.rejectedError evs)) ∧
    (∀ evs ns, settleFrom (Notif.cancelled evs :: ns) = some .rejectedCancelled) ∧
    (∀ evs ns, settleFrom (Notif.progress evs :: ns) = settleFrom ns) := by
  refine ⟨readPromise_eq pre post, fun evs ns => rfl, fun evs ns => rfl,
    fun evs ns => rfl, fun evs ns => rfl⟩
/-- C2.  A Completed notification is emitted for an ingested chunk iff the
non-error events parsed from it are non-empty and all have status Installed;
it carries exactly those events; the check consults only the current batch
(the emissions are a function of the raw chunk alone, identical for every
tracker state); and the two-Installed-plus-one-Downloading batch produces a
Progress notification with all three events and no Completed notification. -/
theorem C2_completed_iff_batch_all_installed :
    (∀ (st : SeqState) (raw : List Char), (Progress st raw).2 = ProgressNotifs raw) ∧
    (∀ (raw : List Char) (l : List InstallerEvent),
      Notif.completed l ∈ ProgressNotifs raw ↔
        ((parseUnityHubEvent raw).filter (fun e => ¬ e.status = InstallerStatus.Error) ≠ [] ∧
         (∀ e ∈ (parseUnityHubEvent raw).filter (fun e => ¬ e.status = InstallerStatus.Error),
            e.status = InstallerStatus.Installed) ∧
         l = (parseUnityHubEvent raw).filter (fun e => ¬ e.status = InstallerStatus.Error))) ∧
    ProgressNotifs threeModuleChunk =
      [Notif.progress [⟨"A".data, "Installed".data, none, none⟩,
                       ⟨"B".data, "Installed".data, none, none⟩,
                       ⟨"C".data, "Downloading".data, some 50, none⟩]] := by
  refine ⟨Progress_snd, completed_mem_iff, by decide⟩

/-- C3.  Once a terminal transition has occurred, subsequent ingestion emits
no further terminal notification.  FALSE: the sequencer keeps no terminated
flag; ingesting the same consolidated Installed line twice emits a second
Completed notification from the second ingestion, after the first Completed
already terminated the operation. -/
theorem C3_counterexample :
    traceOf [Op.ingest sampleInstalledLine, Op.ingest sampleInstalledLine] =
      [Notif.progress [sampleInstalledEvent], Notif.completed [sampleInstalledEvent],
       Notif.progress [sampleInstalledEvent], Notif.completed [sampleInstalledEvent]] := by
  decide

/-- C3 (amended).  After a terminal transition, further ingestion is
tolerated but may emit additional terminal notifications (the code has no
termination guard); what is idempotent is the settlement of the completion
future: a future whose terminal notification has fired keeps that settlement
unchanged under arbitrary further operations. -/
theorem C3_amended_settlement_stable (pre mid post : List Op) (s : Settlement)
    (h : settleFrom (traceOf mid) = some s) :
    readPromise pre (mid ++ post) = some ⟨some s, false, 1⟩ := by
  rw [readPromise_eq]
  have ht : traceOf (mid ++ post) = traceOf mid ++ traceOf post :=
    List.flatMap_append mid post opEmissions
  rw [ht, settleFrom_append_of_some h]

theorem C3_amended_witness :
    settleFrom (traceOf [Op.ingest sampleInstalledLine]) =
      some (.resolved [sampleInstalledEvent]) ∧
    readPromise [] ([Op.ingest sampleInstalledLine] ++ [Op.ingest sampleInstalledLine]) =
      some ⟨some (.resolved [sampleInstalledEvent]), false, 1⟩ :=
  ⟨by decide,
   C3_amended_settlement_stable [] [Op.ingest sampleInstalledLine]
     [Op.ingest sampleInstalledLine] (.resolved [sampleInstalledEvent]) (by decide)⟩
/-- C4.  The error pass produces an event exactly for lines beginning with
`Error:`.  FALSE: the pattern `/Error:.*/` is unanchored, so `test` succeeds
for any line containing `Error:`; the line `"x Error: y"` does not begin
with `Error:` yet yields an error event. -/
theorem C4_counterexample :
    parseUnityHubEvent "x Error: y".data =
      [⟨"UnityHub".data, InstallerStatus.Error, none, some "x Error: y".data⟩] ∧
    "Error:".data.isPrefixOf "x Error: y".data = false := by
  refine ⟨by decide, by decide⟩

/-- C4 (amended).  The error pass produces an error event exactly for lines
containing the literal token `Error:` anywhere; each such line yields one
event with the sentinel module `"UnityHub"`, status Error, and the trimmed
line text as error (e.g. `"Error: disk full"` yields error
`"Error: disk full"`); a line not containing `Error:` yields no error-pass
event. -/
theorem C4_amended_error_pass_on_contains (line : List Char) :
    ((∃ p s, line = p ++ "Error:".data ++ s) →
      checkForErrors line =
        some ⟨"UnityHub".data, InstallerStatus.Error, none, some (jsTrim line)⟩) ∧
    ((¬ ∃ p s, line = p ++ "Error:".data ++ s) → checkForErrors line = none) ∧
    parseUnityHubEvent "Error: disk full".data =
      [⟨"UnityHub".data, InstallerStatus.Error, none, some "Error: disk full".data⟩] :=
  ⟨checkForErrors_of_contains, checkForErrors_of_not_contains, by decide⟩

theorem C4_amended_witness :
    (∃ p s, "x Error: y".data = p ++ "Error:".data ++ s) ∧
    checkForErrors "x Error: y".data =
      some ⟨"UnityHub".data, InstallerStatus.Error, none, some (jsTrim "x Error: y".data)⟩ :=
  ⟨⟨"x ".data, " y".data, by decide⟩,
   (C4_amended_error_pass_on_contains "x Error: y".data).1 ⟨"x ".data, " y".data, by decide⟩⟩

/-- C5.  Parsed events appear in source line order regardless of which pass
matched.  FALSE: the parser runs the error pass over all lines before the
status pass, so the error event of the second line precedes the status event
of the first line. -/
theorem C5_counterexample :
    splitOnNl "[M] Installed\nError: x".data =
      ["[M] Installed".data, "Error: x".data] ∧
    parseUnityHubEvent "[M] Installed\nError: x".data =
      [⟨"UnityHub".data, InstallerStatus.Error, none, some "Error: x".data⟩,
       ⟨"M".data, "Installed".data, none, none⟩] := by
  refine ⟨by decide, by decide⟩

/-- C5 (amended).  The parser returns all error-pass events, in source line
order, followed by all status-pass events, in source line order; source
order is preserved within each pass but not across the two passes. -/
theorem C5_amended_pass_order (chunk : List Char) :
    parseUnityHubEvent chunk =
      (splitOnNl chunk).filterMap checkForErrors ++
      (splitOnNl chunk).filterMap statusLineEvent :=
  parse_eq_append chunk

/-- C6.  Every parsed event has module and status present, status in the
fixed enumeration, and progress absent or within `[0, 100]`.  FALSE: the
parser casts the captured status text without validating it and does not
clamp the percentage; `"[M] Foo 250%"` yields status `"Foo"`, which is not
in the enumeration, with progress `250 > 100`. -/
theorem C6_counterexample :
    parseUnityHubEvent "[M] Foo 250%".data =
      [⟨"M".data, "Foo".data, some 250, none⟩] ∧
    ¬ ("Foo".data ∈ InstallerStatusValues) ∧ ¬ ((250 : ℚ) ≤ 100) := by
  refine ⟨by decide, by decide, by decide⟩

/-- C6 (amended).  Every parsed event has module and status present (they
are mandatory fields of the event record); progress is either absent/null or
a non-negative number.  The parser neither validates the status text against
the enumeration nor bounds progress above. -/
theorem C6_amended_progress_nonneg (chunk : List Char) (e : InstallerEvent)
    (h : e ∈ parseUnityHubEvent chunk) : ∀ q, e.progress = some q → 0 ≤ q := by
  rw [parse_eq_append, List.mem_append] at h
  rcases h with h | h
  · rw [List.mem_filterMap] at h
    obtain ⟨line, -, hline⟩ := h
    intro q hq
    rw [checkForErrors_progress hline] at hq
    cases hq
  · rw [List.mem_filterMap] at h
    obtain ⟨line, -, hline⟩ := h
    exact statusLineEvent_progress_nonneg hline

theorem C6_amended_witness :
    (⟨"ModuleA".data, "Downloading".data, some 42, none⟩ : InstallerEvent) ∈
      parseUnityHubEvent "[ModuleA] Downloading 42%".data ∧
    (0 : ℚ) ≤ 42 :=
  ⟨by decide,
   C6_amended_progress_nonneg "[ModuleA] Downloading 42%".data
     ⟨"ModuleA".data, "Downloading".data, some 42, none⟩ (by decide) 42 rfl⟩
/-- C7.  A status line with an explicit percentage yields that module,
status and parsed number; a `Downloading` line without a percentage defaults
progress to `0`; a non-`Downloading` line without a percentage leaves
progress null. -/
theorem C7_progress_value_semantics :
    parseUnityHubEvent "[ModuleA] Downloading 42%".data =
      [⟨"ModuleA".data, "Downloading".data, some 42, none⟩] ∧
    parseUnityHubEvent "[ModuleA] Downloading".data =
      [⟨"ModuleA".data, "Downloading".data, some 0, none⟩] ∧
    parseUnityHubEvent "[ModuleA] Installed".data =
      [⟨"ModuleA".data, "Installed".data, none, none⟩] := by
  refine ⟨by decide, by decide, by decide⟩

/-- C8.  Every `Cancel()` call clears the module tracker and emits a
Cancelled notification with an empty event list; cancelling twice emits two
Cancelled notifications while the completion future rejects only once with
the cancellation error (one settlement attempt; the second notification
finds the listeners already removed). -/
theorem C8_cancel_idempotent_rejection :
    (∀ st : SeqState,
      (Cancel st).2 = [Notif.cancelled []] ∧ (Cancel st).1.tracker = []) ∧
    (execOps initState [Op.readCompleted, Op.cancel, Op.cancel]).2 =
      [Notif.cancelled [], Notif.cancelled []] ∧
    (execOps initState [Op.readCompleted, Op.cancel, Op.cancel]).1.promises =
      [⟨some .rejectedCancelled, false, 1⟩] := by
  refine ⟨fun st => ⟨rfl, rfl⟩, by decide, by decide⟩

/-- C9.  The parser and the ingestion entry point are total: every input
string produces a result (the parser at worst an empty event list, as on the
noise input below) and every ingestion call on every state produces a
successor state and emission list; no exception escapes, all failure
information flows through notifications and the completion future. -/
theorem C9_parser_and_ingest_total :
    (∀ chunk : List Char, ∃ evs, parseUnityHubEvent chunk = evs) ∧
    (∀ (st : SeqState) (raw : List Char), ∃ r, Progress st raw = r) ∧
    parseUnityHubEvent "some random noise!!".data = [] ∧
    parseUnityHubEvent "[unclosed bracket".data = [] := by
  refine ⟨fun chunk => ⟨_, rfl⟩, fun st raw => ⟨_, rfl⟩, by decide, by decide⟩

/-- C10.  Each read of the `completed` accessor constructs a fresh promise
whose listeners are registered at the read, so its settlement is exactly the
one induced by the first terminal notification emitted after the read; in
particular a promise obtained after the instance's terminal notifications
have fired, with nothing emitted afterwards, never settles. -/
theorem C10_read_registers_listeners_at_read (pre post : List Op) :
    (∀ p : Promise, readPromise pre post = some p →
      p.settled = settleFrom (traceOf post)) ∧
    readPromise [Op.ingest sampleInstalledLine] [] = some Promise.fresh ∧
    Notif.completed [sampleInstalledEvent] ∈ traceOf [Op.ingest sampleInstalledLine] ∧
    Promise.fresh.settled = none := by
  refine ⟨?_, by decide, by decide, rfl⟩
  intro p hp
  rw [readPromise_eq] at hp
  cases hp
  cases settleFrom (traceOf post) <;> rfl

theorem C10_witness :
    readPromise [] [] = some Promise.fresh ∧
    Promise.fresh.settled = settleFrom (traceOf []) :=
  ⟨by decide, (C10_read_registers_listeners_at_read [] []).1 Promise.fresh (by decide)⟩
